import Mathlib

/-!
# Moon Phase Tracker: the phase-calculation core of `script.js`

A shallow embedding of `getMoonAge`, `getMoonPhase`, `displayMoonPhase` and the
forecast loop of `displayNext7Days`, followed by theorems about them.

Modelling conventions

* A `Date` is represented by its time value, the integer number of milliseconds
  since 1970-01-01T00:00:00Z that `getTime()` returns.
* A JavaScript number is represented by a rational (`ℚ`).  `getMoonAge` and
  `getMoonPhase` use the real-number arithmetic the source denotes; `getMoonAge64`
  rounds every arithmetic result to binary64 as the code does, and decides the claims
  that depend on the rounding.  `NaN` and the infinities are not represented.
* The remainder operator `%` is the truncated remainder of ECMAScript:
  `n % d = n - d * q` where `q` is the quotient `n / d` rounded toward zero, so
  that the result has the sign of the dividend.
-/

namespace MoonTracker

/-! ## Constants -/

/-- Time value of `new Date('2000-01-06T18:14:00Z')`: 10957 days from 1970-01-01 to
2000-01-01, five more days to January 6th, then 18 h 14 min; in milliseconds. -/
def KNOWN_NEW_MOON_DATE : ℤ := (10957 + 5) * 86400000 + (18 * 3600 + 14 * 60) * 1000

/-- The average length of a synodic month, in days. -/
def LUNAR_CYCLE : ℚ := 29.53058867

/-! ## The remainder operator -/

/-- Rounding toward zero: the integer quotient used by `%`. -/
def jsTrunc (q : ℚ) : ℤ := if 0 ≤ q then ⌊q⌋ else ⌈q⌉

/-- The operator `n % d` on numbers, for a non-zero divisor `d`. -/
def jsRem (n d : ℚ) : ℚ := n - d * (jsTrunc (n / d) : ℚ)

/-! ## `getMoonAge` -/

/-- Lines 19-24 of `getMoonAge`: the age computed from the elapsed days `diffDays`. -/
def moonAgeOfDays (diffDays : ℚ) : ℚ :=
  let moonAge := jsRem diffDays LUNAR_CYCLE
  if moonAge < 0 then moonAge + LUNAR_CYCLE else moonAge

/-- The function `getMoonAge(date)`: the moon's age in days at the instant `date`. -/
def getMoonAge (date : ℤ) : ℚ :=
  let diffMs : ℤ := date - KNOWN_NEW_MOON_DATE
  let diffDays : ℚ := (diffMs : ℚ) / (1000 * 60 * 60 * 24)
  let moonAge := jsRem diffDays LUNAR_CYCLE
  if moonAge < 0 then moonAge + LUNAR_CYCLE else moonAge

/-! ## `getMoonPhase` -/

/-- An entry of the `phases` table. -/
structure PhaseEntry where
  threshold : ℚ
  name : String
  emoji : String
  deriving Repr

/-- The object `\x7b emoji, name \x7d` that `getMoonPhase` returns. -/
structure PhaseDescriptor where
  emoji : String
  name : String
  deriving DecidableEq, Repr

/-- The table `phases` of `getMoonPhase`, in source order.  The emoji strings are the
characters of the source file as it is stored. -/
def phases : List PhaseEntry :=
  [ { threshold := 1.84566, name := "New Moon", emoji := "ðŸŒ‘" },
    { threshold := 5.53699, name := "Waxing Crescent", emoji := "ðŸŒ’" },
    { threshold := 9.22831, name := "First Quarter", emoji := "ðŸŒ“" },
    { threshold := 12.91963, name := "Waxing Gibbous", emoji := "ðŸŒ”" },
    { threshold := 16.61096, name := "Full Moon", emoji := "ðŸŒ•" },
    { threshold := 20.30228, name := "Waning Gibbous", emoji := "ðŸŒ–" },
    { threshold := 23.99361, name := "Last Quarter", emoji := "ðŸŒ—" },
    { threshold := 27.68493, name := "Waning Crescent", emoji := "ðŸŒ˜" },
    { threshold := 29.53058, name := "New Moon", emoji := "ðŸŒ‘" } ]

/-- The descriptor built from a table entry by the `return` inside the loop. -/
def PhaseEntry.descriptor (phase : PhaseEntry) : PhaseDescriptor :=
  { emoji := phase.emoji, name := phase.name }

/-- The loop `for (const phase of phases)`: the first entry with `age <= threshold`,
or `none` when the loop runs to its end without returning. -/
def scanPhases : List PhaseEntry → ℚ → Option PhaseEntry
  | [], _ => none
  | phase :: rest, age => if age ≤ phase.threshold then some phase else scanPhases rest age

/-- The descriptor of the `return` after the loop. -/
def defaultPhase : PhaseDescriptor := { emoji := "ðŸŒ‘", name := "New Moon" }

/-- The function `getMoonPhase(age)`. -/
def getMoonPhase (age : ℚ) : PhaseDescriptor :=
  match scanPhases phases age with
  | some phase => phase.descriptor
  | none => defaultPhase

/-! ## `displayMoonPhase` and the forecast loop -/

/-- The function `displayMoonPhase`: the descriptor whose `emoji` and `name` are
written to the two elements. -/
def displayMoonPhase (date : ℤ) : PhaseDescriptor :=
  let moonAge := getMoonAge date
  getMoonPhase moonAge

/-- Milliseconds in a day of 24 hours. -/
def MS_PER_DAY : ℤ := 1000 * 60 * 60 * 24

/-- The date `date.setDate(today.getDate() + i)`, each calendar day taken to last
exactly `MS_PER_DAY` milliseconds. -/
def addDays (today : ℤ) (i : ℕ) : ℤ := today + (i : ℤ) * MS_PER_DAY

/-! ## Binary64 arithmetic

The claims about exact equalities of computed ages depend on the rounding of the
code's numbers.  `binary64 x` is the binary64 value nearest to the rational `x`, ties
to even, with the subnormal range below `2 ^ (-1022)`; overflow is not represented (no
value of this program comes near `2 ^ 1024`).  `getMoonAge64` is `getMoonAge` with every
arithmetic result rounded as the code rounds it. -/

/-- Rounding to the nearest integer, ties to the even one. -/
def roundHalfEven (q : ℚ) : ℤ :=
  if q - (⌊q⌋ : ℚ) < 1 / 2 then ⌊q⌋
  else if 1 / 2 < q - (⌊q⌋ : ℚ) then ⌊q⌋ + 1
  else if ⌊q⌋ % 2 = 0 then ⌊q⌋ else ⌊q⌋ + 1

/-- The binary exponent of the binade of `x`, not below that of the subnormals. -/
def binary64Exp (x : ℚ) : ℤ := max (Int.log 2 |x|) (-1022)

/-- The binary64 number nearest to `x`: a multiple of `2 ^ (e - 52)` with 53 significant
bits, where `e` is the exponent of `x`. -/
def binary64 (x : ℚ) : ℚ :=
  if x = 0 then 0
  else (roundHalfEven (x / (2 : ℚ) ^ (binary64Exp x - 52)) : ℚ) * (2 : ℚ) ^ (binary64Exp x - 52)

/-- The number the literal `29.53058867` denotes in the code. -/
def LUNAR_CYCLE64 : ℚ := binary64 29.53058867

/-- The function `getMoonAge(date)` in binary64 arithmetic: the subtraction, the division
and the addition round, the operator `%` is exact. -/
def getMoonAge64 (date : ℤ) : ℚ :=
  let diffMs : ℚ := binary64 ((date : ℚ) - (KNOWN_NEW_MOON_DATE : ℚ))
  let diffDays : ℚ := binary64 (diffMs / (1000 * 60 * 60 * 24))
  let moonAge := jsRem diffDays LUNAR_CYCLE64
  if moonAge < 0 then binary64 (moonAge + LUNAR_CYCLE64) else moonAge

/-- The ages computed by the loop `for (let i = 1; i <= 7; i++)` of `displayNext7Days`. -/
def forecastAges64 (today : ℤ) : List ℚ :=
  (List.range' 1 7).map fun i => getMoonAge64 (addDays today i)

/-! ## Auxiliary facts -/

theorem LUNAR_CYCLE_pos : 0 < LUNAR_CYCLE := by
  norm_num [LUNAR_CYCLE]

theorem getMoonAge_eq_moonAgeOfDays (date : ℤ) :
    getMoonAge date = moonAgeOfDays (((date - KNOWN_NEW_MOON_DATE : ℤ) : ℚ) / 86400000) := by
  unfold getMoonAge moonAgeOfDays
  norm_num

/-- The truncated remainder, made non-negative, is the floored remainder. -/
theorem moonAgeOfDays_eq_floor (d : ℚ) :
    moonAgeOfDays d = d - LUNAR_CYCLE * (⌊d / LUNAR_CYCLE⌋ : ℚ) := by
  have hL := LUNAR_CYCLE_pos
  have hd : d = LUNAR_CYCLE * (d / LUNAR_CYCLE) := by field_simp
  unfold moonAgeOfDays jsRem jsTrunc
  by_cases hq : 0 ≤ d / LUNAR_CYCLE
  · have h1 : ((⌊d / LUNAR_CYCLE⌋ : ℤ) : ℚ) ≤ d / LUNAR_CYCLE := Int.floor_le _
    have h2 : LUNAR_CYCLE * (⌊d / LUNAR_CYCLE⌋ : ℚ) ≤ LUNAR_CYCLE * (d / LUNAR_CYCLE) :=
      mul_le_mul_of_nonneg_left h1 hL.le
    have h3 : ¬ d - LUNAR_CYCLE * (⌊d / LUNAR_CYCLE⌋ : ℚ) < 0 := by
      rw [← hd] at h2; linarith
    simp only [if_pos hq, if_neg h3]
  · simp only [if_neg hq]
    by_cases hr : d - LUNAR_CYCLE * (⌈d / LUNAR_CYCLE⌉ : ℚ) < 0
    · rw [if_pos hr]
      have hne : ((⌊d / LUNAR_CYCLE⌋ : ℤ) : ℚ) ≠ d / LUNAR_CYCLE := by
        intro habs
        have : (⌈d / LUNAR_CYCLE⌉ : ℤ) = ⌊d / LUNAR_CYCLE⌋ := by
          rw [← habs]; simp
        rw [this, habs, ← hd] at hr
        linarith
      have hlt : ((⌊d / LUNAR_CYCLE⌋ : ℤ) : ℚ) < d / LUNAR_CYCLE :=
        lt_of_le_of_ne (Int.floor_le _) hne
      have hceil : (⌈d / LUNAR_CYCLE⌉ : ℤ) = ⌊d / LUNAR_CYCLE⌋ + 1 := by
        rw [Int.ceil_eq_iff]
        constructor
        · push_cast; linarith
        · push_cast; exact (Int.lt_floor_add_one _).le
      rw [hceil]; push_cast; ring
    · rw [if_neg hr]
      have h1 : d / LUNAR_CYCLE ≤ ((⌈d / LUNAR_CYCLE⌉ : ℤ) : ℚ) := Int.le_ceil _
      have h2 : LUNAR_CYCLE * (d / LUNAR_CYCLE) ≤ LUNAR_CYCLE * (⌈d / LUNAR_CYCLE⌉ : ℚ) :=
        mul_le_mul_of_nonneg_left h1 hL.le
      rw [← hd] at h2
      have h3 : d = LUNAR_CYCLE * (⌈d / LUNAR_CYCLE⌉ : ℚ) := by
        push_neg at hr; linarith
      have h4 : d / LUNAR_CYCLE = ((⌈d / LUNAR_CYCLE⌉ : ℤ) : ℚ) := by
        field_simp; linarith
      have h5 : (⌊d / LUNAR_CYCLE⌋ : ℤ) = ⌈d / LUNAR_CYCLE⌉ := by
        rw [h4]; simp
      rw [h5]

theorem moonAgeOfDays_nonneg (d : ℚ) : 0 ≤ moonAgeOfDays d := by
  have hL := LUNAR_CYCLE_pos
  rw [moonAgeOfDays_eq_floor]
  have h1 : ((⌊d / LUNAR_CYCLE⌋ : ℤ) : ℚ) ≤ d / LUNAR_CYCLE := Int.floor_le _
  have h2 := mul_le_mul_of_nonneg_left h1 hL.le
  have hd : LUNAR_CYCLE * (d / LUNAR_CYCLE) = d := by field_simp
  rw [hd] at h2
  linarith

theorem moonAgeOfDays_lt (d : ℚ) : moonAgeOfDays d < LUNAR_CYCLE := by
  have hL := LUNAR_CYCLE_pos
  rw [moonAgeOfDays_eq_floor]
  have h1 : d / LUNAR_CYCLE < ((⌊d / LUNAR_CYCLE⌋ : ℤ) : ℚ) + 1 := Int.lt_floor_add_one _
  have h2 := mul_lt_mul_of_pos_left h1 hL
  have hd : LUNAR_CYCLE * (d / LUNAR_CYCLE) = d := by field_simp
  rw [hd] at h2
  linarith

/-- An elapsed time already inside one cycle is its own age. -/
theorem moonAgeOfDays_of_mem (d : ℚ) (h0 : 0 ≤ d) (h1 : d < LUNAR_CYCLE) :
    moonAgeOfDays d = d := by
  have hL := LUNAR_CYCLE_pos
  rw [moonAgeOfDays_eq_floor]
  have hfl : ⌊d / LUNAR_CYCLE⌋ = 0 := by
    rw [Int.floor_eq_iff]
    constructor
    · simpa using div_nonneg h0 hL.le
    · simpa using (div_lt_one hL).mpr h1
  rw [hfl]; simp

/-- The loop returns the entry at position `i` when every earlier threshold is below
the age and the threshold at `i` is not. -/
theorem scanPhases_eq_of_first (age : ℚ) :
    ∀ (l : List PhaseEntry) (i : ℕ) (e : PhaseEntry), l[i]? = some e →
      (∀ j p, j < i → l[j]? = some p → p.threshold < age) → age ≤ e.threshold →
      scanPhases l age = some e := by
  intro l
  induction l with
  | nil => intro i e he; simp at he
  | cons p rest ih =>
    intro i e he hprev hle
    cases i with
    | zero =>
      simp at he
      subst he
      simp [scanPhases, hle]
    | succ n =>
      have hp : p.threshold < age := hprev 0 p (Nat.succ_pos n) (by simp)
      have hnot : ¬ age ≤ p.threshold := not_le.mpr hp
      simp only [scanPhases, if_neg hnot]
      apply ih n e (by simpa using he) _ hle
      intro j q hj hq
      exact hprev (j + 1) q (Nat.succ_lt_succ hj) (by simpa using hq)

/-- The loop depends on the age only through the comparisons it makes. -/
theorem scanPhases_congr (a1 a2 : ℚ) :
    ∀ l : List PhaseEntry, (∀ p ∈ l, (a1 ≤ p.threshold ↔ a2 ≤ p.threshold)) →
      scanPhases l a1 = scanPhases l a2 := by
  intro l
  induction l with
  | nil => intro _; rfl
  | cons p rest ih =>
    intro h
    have hp := h p (List.mem_cons_self p rest)
    have hrest := ih (fun q hq => h q (List.mem_cons_of_mem p hq))
    by_cases h1 : a1 ≤ p.threshold
    · have h2 := hp.mp h1
      simp [scanPhases, h1, h2]
    · have h2 : ¬ a2 ≤ p.threshold := fun h2 => h1 (hp.mpr h2)
      simp [scanPhases, h1, h2, hrest]

/-- When the loop returns an entry, that entry is in the list and bounds the age. -/
theorem scanPhases_some (age : ℚ) :
    ∀ (l : List PhaseEntry) (e : PhaseEntry), scanPhases l age = some e →
      e ∈ l ∧ age ≤ e.threshold := by
  intro l
  induction l with
  | nil => intro e he; simp [scanPhases] at he
  | cons p rest ih =>
    intro e he
    by_cases h1 : age ≤ p.threshold
    · simp [scanPhases, h1] at he
      subst he
      exact ⟨List.mem_cons_self _ _, h1⟩
    · simp only [scanPhases, if_neg h1] at he
      obtain ⟨hm, hle⟩ := ih e he
      exact ⟨List.mem_cons_of_mem _ hm, hle⟩

/-- The loop runs to its end exactly when the age exceeds every threshold. -/
theorem scanPhases_eq_none_iff (age : ℚ) :
    ∀ l : List PhaseEntry, scanPhases l age = none ↔ ∀ p ∈ l, p.threshold < age := by
  intro l
  induction l with
  | nil => simp [scanPhases]
  | cons p rest ih =>
    by_cases h1 : age ≤ p.threshold
    · simp [scanPhases, h1]
    · simp [scanPhases, h1, ih, not_le.mp h1]

/-- The thresholds of the table increase with the position. -/
theorem phases_threshold_lt (j k : ℕ) (p q : PhaseEntry) (hjk : j < k)
    (hp : phases[j]? = some p) (hq : phases[k]? = some q) : p.threshold < q.threshold := by
  have hk : k < 9 := by
    by_contra hcon
    have : phases[k]? = none := by
      rw [List.getElem?_eq_none_iff]; simp [phases]; omega
    rw [this] at hq; cases hq
  interval_cases k <;> interval_cases j <;>
    simp [phases] at hp hq <;> subst hp <;> subst hq <;> norm_num

/-- The loop on the table, by cases on the age. -/
theorem scanPhases_phases_of_le (age : ℚ) (h : age ≤ 29.53058) :
    ∃ p, scanPhases phases age = some p ∧ p ∈ phases ∧ age ≤ p.threshold := by
  cases hs : scanPhases phases age with
  | none =>
    have hall := (scanPhases_eq_none_iff age phases).mp hs
    have hlast := hall ⟨29.53058, "New Moon", "ðŸŒ‘"⟩ (by simp [phases])
    exact absurd h (not_le.mpr hlast)
  | some p =>
    obtain ⟨hm, hle⟩ := scanPhases_some age phases p hs
    exact ⟨p, rfl, hm, hle⟩

theorem scanPhases_phases_of_gt (age : ℚ) (h : 29.53058 < age) :
    scanPhases phases age = none := by
  rw [scanPhases_eq_none_iff]
  intro p hp
  simp only [phases, List.mem_cons, List.mem_singleton, List.not_mem_nil, or_false] at hp
  rcases hp with hp | hp | hp | hp | hp | hp | hp | hp | hp <;> subst hp <;>
    simp only <;> linarith

/-- The instant 2551442861 ms after the reference epoch has an age just below one cycle. -/
theorem getMoonAge_late :
    getMoonAge (KNOWN_NEW_MOON_DATE + 2551442861) = 2551442861 / 86400000 := by
  rw [getMoonAge_eq_moonAgeOfDays]
  have : (((KNOWN_NEW_MOON_DATE + 2551442861 - KNOWN_NEW_MOON_DATE : ℤ) : ℚ) / 86400000)
      = 2551442861 / 86400000 := by
    push_cast; ring
  rw [this]
  exact moonAgeOfDays_of_mem _ (by norm_num) (by norm_num [LUNAR_CYCLE])

/-! ## Facts about the binary64 arithmetic -/


theorem roundHalfEven_err (q : ℚ) : |(roundHalfEven q : ℚ) - q| ≤ 1 / 2 := by
  have h1 : ((⌊q⌋ : ℤ) : ℚ) ≤ q := Int.floor_le q
  have h2 : q < ((⌊q⌋ : ℤ) : ℚ) + 1 := Int.lt_floor_add_one q
  unfold roundHalfEven
  split_ifs with ha hb hc
  · rw [abs_le]; constructor <;> linarith
  · push_cast; rw [abs_le]; constructor <;> linarith
  · rw [abs_le]; constructor <;> linarith
  · push_cast; rw [abs_le]; constructor <;> linarith

theorem roundHalfEven_eq_of (q : ℚ) (n : ℤ) (h : |q - (n : ℚ)| < 1 / 2) :
    roundHalfEven q = n := by
  have h1 : ((⌊q⌋ : ℤ) : ℚ) ≤ q := Int.floor_le q
  have h2 : q < ((⌊q⌋ : ℤ) : ℚ) + 1 := Int.lt_floor_add_one q
  rw [abs_lt] at h
  obtain ⟨h3, h4⟩ := h
  unfold roundHalfEven
  split_ifs with ha hb hc
  · have : ((⌊q⌋ : ℤ) : ℚ) < (n : ℚ) + 1 := by linarith
    have : ((n : ℤ) : ℚ) < ((⌊q⌋ : ℤ) : ℚ) + 1 := by linarith
    have hA : ⌊q⌋ < n + 1 := by exact_mod_cast ‹((⌊q⌋ : ℤ) : ℚ) < (n : ℚ) + 1›
    have hB : n < ⌊q⌋ + 1 := by exact_mod_cast this
    omega
  · have hA' : ((⌊q⌋ : ℤ) : ℚ) + 1 < (n : ℚ) + 1 := by linarith
    have hB' : (n : ℚ) < ((⌊q⌋ : ℤ) : ℚ) + 1 + 1 := by linarith
    have hA : ⌊q⌋ + 1 < n + 1 := by exact_mod_cast hA'
    have hB : n < ⌊q⌋ + 1 + 1 := by exact_mod_cast hB'
    omega
  · exfalso
    have heq : q - ((⌊q⌋ : ℤ) : ℚ) = 1 / 2 := le_antisymm (not_lt.mp hb) (not_lt.mp ha)
    have hA' : ((⌊q⌋ : ℤ) : ℚ) < (n : ℚ) := by linarith
    have hB' : (n : ℚ) < ((⌊q⌋ : ℤ) : ℚ) + 1 := by linarith
    have hA : ⌊q⌋ < n := by exact_mod_cast hA'
    have hB : n < ⌊q⌋ + 1 := by exact_mod_cast hB'
    omega
  · exfalso
    have heq : q - ((⌊q⌋ : ℤ) : ℚ) = 1 / 2 := le_antisymm (not_lt.mp hb) (not_lt.mp ha)
    have hA' : ((⌊q⌋ : ℤ) : ℚ) < (n : ℚ) := by linarith
    have hB' : (n : ℚ) < ((⌊q⌋ : ℤ) : ℚ) + 1 := by linarith
    have hA : ⌊q⌋ < n := by exact_mod_cast hA'
    have hB : n < ⌊q⌋ + 1 := by exact_mod_cast hB'
    omega

theorem binary64Exp_zpow_le (x : ℚ) (hx : x ≠ 0) : (2 : ℚ) ^ binary64Exp x ≤ |x| + 1 := by
  have hpos : 0 < |x| := abs_pos.mpr hx
  unfold binary64Exp
  rcases le_total (Int.log 2 |x|) (-1022) with h | h
  · rw [max_eq_right h]
    have : (2 : ℚ) ^ (-1022 : ℤ) ≤ 1 := zpow_le_one_of_nonpos₀ (by norm_num) (by norm_num)
    linarith
  · rw [max_eq_left h]
    have := Int.zpow_log_le_self (b := 2) (r := |x|) (by norm_num) hpos
    have h2 : ((2 : ℕ) : ℚ) ^ Int.log 2 |x| ≤ |x| := this
    norm_num at h2
    linarith

theorem binary64_err (x : ℚ) : |binary64 x - x| ≤ (|x| + 1) / 2 ^ 53 := by
  unfold binary64
  split_ifs with hx
  · subst hx; norm_num
  · have hu : (0 : ℚ) < (2 : ℚ) ^ (binary64Exp x - 52) := zpow_pos (by norm_num) _
    have herr := roundHalfEven_err (x / (2 : ℚ) ^ (binary64Exp x - 52))
    have hfac : (roundHalfEven (x / (2 : ℚ) ^ (binary64Exp x - 52)) : ℚ)
          * (2 : ℚ) ^ (binary64Exp x - 52) - x
        = ((roundHalfEven (x / (2 : ℚ) ^ (binary64Exp x - 52)) : ℚ)
            - x / (2 : ℚ) ^ (binary64Exp x - 52)) * (2 : ℚ) ^ (binary64Exp x - 52) := by
      field_simp
    rw [hfac, abs_mul, abs_of_pos hu]
    have hsplit : (2 : ℚ) ^ (binary64Exp x - 52) = (2 : ℚ) ^ binary64Exp x / 2 ^ 52 := by
      rw [zpow_sub₀ (by norm_num : (2 : ℚ) ≠ 0)]; norm_num
    have hle := binary64Exp_zpow_le x hx
    have hpow : (0 : ℚ) < (2 : ℚ) ^ binary64Exp x := zpow_pos (by norm_num) _
    calc |(roundHalfEven (x / (2 : ℚ) ^ (binary64Exp x - 52)) : ℚ)
            - x / (2 : ℚ) ^ (binary64Exp x - 52)| * (2 : ℚ) ^ (binary64Exp x - 52)
        ≤ 1 / 2 * (2 : ℚ) ^ (binary64Exp x - 52) := mul_le_mul_of_nonneg_right herr hu.le
      _ = (2 : ℚ) ^ binary64Exp x / 2 ^ 53 := by rw [hsplit]; ring
      _ ≤ (|x| + 1) / 2 ^ 53 := by
          apply div_le_div_of_nonneg_right hle (by norm_num)

theorem binary64_eq_of (x : ℚ) (e n : ℤ) (hlo : (2 : ℚ) ^ e ≤ |x|) (hhi : |x| < (2 : ℚ) ^ (e + 1))
    (he : -1022 ≤ e) (hn : |x / (2 : ℚ) ^ (e - 52) - (n : ℚ)| < 1 / 2) :
    binary64 x = (n : ℚ) * (2 : ℚ) ^ (e - 52) := by
  have hpos : 0 < |x| := lt_of_lt_of_le (zpow_pos (by norm_num) _) hlo
  have hx : x ≠ 0 := abs_pos.mp hpos
  have hlog : Int.log 2 |x| = e := by
    apply le_antisymm
    · have := (Int.lt_zpow_iff_log_lt (b := 2) (by norm_num) hpos (x := e + 1)).mp
        (by exact_mod_cast hhi)
      omega
    · exact (Int.zpow_le_iff_le_log (b := 2) (by norm_num) hpos).mp (by exact_mod_cast hlo)
  have hexp : binary64Exp x = e := by
    unfold binary64Exp; rw [hlog]; exact max_eq_left he
  unfold binary64
  rw [if_neg hx, hexp, roundHalfEven_eq_of _ n hn]

theorem binary64_intCast (n : ℤ) (h : |n| < 2 ^ 53) : binary64 (n : ℚ) = (n : ℚ) := by
  by_cases hn : n = 0
  · subst hn; simp [binary64]
  have hx : (n : ℚ) ≠ 0 := by exact_mod_cast hn
  have habs1 : (1 : ℚ) ≤ |(n : ℚ)| := by
    have : (1 : ℤ) ≤ |n| := Int.one_le_abs hn
    exact_mod_cast this
  have habs2 : |(n : ℚ)| < 2 ^ 53 := by exact_mod_cast h
  have hpos : 0 < |(n : ℚ)| := by linarith
  have hlog0 : 0 ≤ Int.log 2 |(n : ℚ)| :=
    (Int.zpow_le_iff_le_log (b := 2) (by norm_num) hpos).mp (by simpa using habs1)
  have hlog1 : Int.log 2 |(n : ℚ)| < 53 :=
    (Int.lt_zpow_iff_log_lt (b := 2) (by norm_num) hpos (x := 53)).mp
      (by exact_mod_cast habs2)
  have hexp : binary64Exp (n : ℚ) = Int.log 2 |(n : ℚ)| := by
    unfold binary64Exp; exact max_eq_left (by omega)
  obtain ⟨p, hp⟩ : ∃ p : ℕ, (p : ℤ) = 52 - Int.log 2 |(n : ℚ)| :=
    ⟨(52 - Int.log 2 |(n : ℚ)|).toNat, Int.toNat_of_nonneg (by omega)⟩
  have hpow : (2 : ℚ) ^ (Int.log 2 |(n : ℚ)| - 52) = ((2 : ℚ) ^ p)⁻¹ := by
    have : Int.log 2 |(n : ℚ)| - 52 = -(p : ℤ) := by omega
    rw [this, zpow_neg, zpow_natCast]
  unfold binary64
  rw [if_neg hx, hexp, hpow]
  have hq : (n : ℚ) / ((2 : ℚ) ^ p)⁻¹ = ((n * 2 ^ p : ℤ) : ℚ) := by
    push_cast; field_simp
  rw [hq, roundHalfEven_eq_of _ (n * 2 ^ p) (by simp)]
  push_cast
  field_simp


theorem jsTrunc_abs_le (y : ℚ) : |(jsTrunc y : ℚ)| ≤ |y| := by
  unfold jsTrunc
  split_ifs with h
  · have h1 : ((⌊y⌋ : ℤ) : ℚ) ≤ y := Int.floor_le y
    have h0 : (0 : ℚ) ≤ ((⌊y⌋ : ℤ) : ℚ) := by exact_mod_cast Int.floor_nonneg.mpr h
    rw [abs_of_nonneg h0, abs_of_nonneg h]; exact h1
  · push_neg at h
    have h1 : y ≤ ((⌈y⌉ : ℤ) : ℚ) := Int.le_ceil y
    have h0 : ((⌈y⌉ : ℤ) : ℚ) ≤ 0 := by
      exact_mod_cast Int.ceil_le.mpr (by simpa using h.le)
    rw [abs_of_nonpos h0, abs_of_neg h]; linarith

theorem jsRem_abs_lt (n d : ℚ) (hd : 0 < d) : |jsRem n d| < d := by
  have hn : n = d * (n / d) := by field_simp
  unfold jsRem jsTrunc
  split_ifs with h
  · have h1 : ((⌊n / d⌋ : ℤ) : ℚ) ≤ n / d := Int.floor_le _
    have h2 : n / d < ((⌊n / d⌋ : ℤ) : ℚ) + 1 := Int.lt_floor_add_one _
    have h3 := mul_le_mul_of_nonneg_left h1 hd.le
    have h4 := mul_lt_mul_of_pos_left h2 hd
    rw [← hn] at h3 h4
    rw [abs_lt]; constructor <;> nlinarith
  · have h1 : n / d ≤ ((⌈n / d⌉ : ℤ) : ℚ) := Int.le_ceil _
    have h2 : ((⌈n / d⌉ : ℤ) : ℚ) < n / d + 1 := Int.ceil_lt_add_one _
    have h3 := mul_le_mul_of_nonneg_left h1 hd.le
    have h4 := mul_lt_mul_of_pos_left h2 hd
    rw [← hn] at h3
    rw [mul_add, ← hn] at h4
    rw [abs_lt]; constructor <;> nlinarith

theorem jsTrunc_eq_of_nonneg (y : ℚ) (q : ℤ) (h0 : 0 ≤ y) (h1 : (q : ℚ) ≤ y)
    (h2 : y < (q : ℚ) + 1) : jsTrunc y = q := by
  unfold jsTrunc
  rw [if_pos h0, Int.floor_eq_iff]
  exact ⟨h1, h2⟩

theorem jsTrunc_eq_of_neg (y : ℚ) (q : ℤ) (h0 : y < 0) (h1 : (q : ℚ) - 1 < y)
    (h2 : y ≤ (q : ℚ)) : jsTrunc y = q := by
  unfold jsTrunc
  rw [if_neg (not_le.mpr h0), Int.ceil_eq_iff]
  exact ⟨h1, h2⟩

theorem LUNAR_CYCLE64_eq : LUNAR_CYCLE64 = 2078030439535053 / 70368744177664 := by
  unfold LUNAR_CYCLE64
  rw [binary64_eq_of 29.53058867 4 8312121758140212 (by norm_num [abs_of_pos])
    (by norm_num [abs_of_pos]) (by norm_num) (by norm_num [abs_lt])]
  norm_num

theorem LUNAR_CYCLE64_near :
    29 < LUNAR_CYCLE64 ∧ LUNAR_CYCLE64 < 30 ∧ |LUNAR_CYCLE - LUNAR_CYCLE64| ≤ 18 / 10 ^ 16 := by
  rw [LUNAR_CYCLE64_eq]
  unfold LUNAR_CYCLE
  refine ⟨by norm_num, by norm_num, ?_⟩
  rw [abs_le]; constructor <;> norm_num

theorem LUNAR_CYCLE_bounds : 29 < LUNAR_CYCLE ∧ LUNAR_CYCLE < 30 := by
  unfold LUNAR_CYCLE
  constructor <;> norm_num

/-- Rounding a sum that lies between 0 and the cycle length moves it by little. -/
theorem binary64_add_cycle_err (r : ℚ) (h1 : -LUNAR_CYCLE64 < r) (h2 : r < 0) :
    |binary64 (r + LUNAR_CYCLE64) - (r + LUNAR_CYCLE64)| ≤ 1 / 10 ^ 13 := by
  obtain ⟨hlo, hhi, _⟩ := LUNAR_CYCLE64_near
  refine le_trans (binary64_err _) ?_
  have hs : |r + LUNAR_CYCLE64| ≤ 30 := by
    rw [abs_le]; constructor <;> linarith
  rw [div_le_iff₀ (by norm_num)]
  have : (31 : ℚ) ≤ 1 / 10 ^ 13 * 2 ^ 53 := by norm_num
  linarith

theorem getMoonAge64_unfold (date : ℤ) :
    getMoonAge64 date
      = if jsRem (binary64 (binary64 ((date : ℚ) - (KNOWN_NEW_MOON_DATE : ℚ)) / 86400000))
            LUNAR_CYCLE64 < 0
        then binary64 (jsRem
            (binary64 (binary64 ((date : ℚ) - (KNOWN_NEW_MOON_DATE : ℚ)) / 86400000))
            LUNAR_CYCLE64 + LUNAR_CYCLE64)
        else jsRem (binary64 (binary64 ((date : ℚ) - (KNOWN_NEW_MOON_DATE : ℚ)) / 86400000))
          LUNAR_CYCLE64 := by
  unfold getMoonAge64
  norm_num

/-- The difference of the time values of a valid date and the epoch is an integer below
`2 ^ 53`, so the subtraction is exact. -/
theorem diffMs_exact (date : ℤ) (hvalid : |date| ≤ 8640000000000000) :
    binary64 ((date : ℚ) - (KNOWN_NEW_MOON_DATE : ℚ))
      = ((date - KNOWN_NEW_MOON_DATE : ℤ) : ℚ) := by
  have h : |date - KNOWN_NEW_MOON_DATE| < 2 ^ 53 := by
    rw [abs_le] at hvalid
    rw [abs_lt]
    unfold KNOWN_NEW_MOON_DATE
    constructor <;> omega
  rw [← Int.cast_sub]
  exact binary64_intCast _ h

theorem getMoonAge64_eq (date : ℤ) (hvalid : |date| ≤ 8640000000000000) :
    getMoonAge64 date
      = if jsRem (binary64 (((date - KNOWN_NEW_MOON_DATE : ℤ) : ℚ) / 86400000)) LUNAR_CYCLE64 < 0
        then binary64 (jsRem (binary64 (((date - KNOWN_NEW_MOON_DATE : ℤ) : ℚ) / 86400000))
          LUNAR_CYCLE64 + LUNAR_CYCLE64)
        else jsRem (binary64 (((date - KNOWN_NEW_MOON_DATE : ℤ) : ℚ) / 86400000))
          LUNAR_CYCLE64 := by
  rw [getMoonAge64_unfold, diffMs_exact date hvalid]

theorem getMoonAge64_bounds (date : ℤ) :
    -(1 / 10 ^ 12) ≤ getMoonAge64 date ∧ getMoonAge64 date ≤ LUNAR_CYCLE + 1 / 10 ^ 12 := by
  obtain ⟨hlo, hhi, hc⟩ := LUNAR_CYCLE64_near
  have hL : (0 : ℚ) < LUNAR_CYCLE64 := by linarith
  rw [abs_le] at hc
  obtain ⟨hc1, hc2⟩ := hc
  rw [getMoonAge64_unfold]
  generalize binary64 (binary64 ((date : ℚ) - (KNOWN_NEW_MOON_DATE : ℚ)) / 86400000) = d
  have hr := jsRem_abs_lt d LUNAR_CYCLE64 hL
  rw [abs_lt] at hr
  obtain ⟨hr1, hr2⟩ := hr
  split_ifs with hneg
  · have herr := binary64_add_cycle_err _ hr1 hneg
    rw [abs_le] at herr
    obtain ⟨he1, he2⟩ := herr
    constructor
    · have : (1 : ℚ) / 10 ^ 13 ≤ 1 / 10 ^ 12 := by norm_num
      linarith
    · have : (1 : ℚ) / 10 ^ 13 + 18 / 10 ^ 16 ≤ 1 / 10 ^ 12 := by norm_num
      linarith
  · push_neg at hneg
    constructor
    · have : (0 : ℚ) ≤ 1 / 10 ^ 12 := by norm_num
      linarith
    · have : (18 : ℚ) / 10 ^ 16 ≤ 1 / 10 ^ 12 := by norm_num
      linarith

/-- The binary64 age agrees with the exact elapsed days up to whole cycles. -/
theorem getMoonAge64_near (date : ℤ) (hvalid : |date| ≤ 8640000000000000) :
    ∃ m : ℤ, |getMoonAge64 date
        - (((date - KNOWN_NEW_MOON_DATE : ℤ) : ℚ) / 86400000 - (m : ℚ) * LUNAR_CYCLE)|
      ≤ 2 / 10 ^ 8 := by
  obtain ⟨hlo, hhi, hc⟩ := LUNAR_CYCLE64_near
  have hL : (0 : ℚ) < LUNAR_CYCLE64 := by linarith
  rw [getMoonAge64_eq date hvalid]
  generalize hxdef : ((date - KNOWN_NEW_MOON_DATE : ℤ) : ℚ) / 86400000 = x
  -- the elapsed days are bounded on the range of valid dates
  have hxabs : |x| ≤ 100010963 := by
    rw [abs_le] at hvalid
    obtain ⟨h1, h2⟩ := hvalid
    have h1' : (-8640000000000000 : ℚ) ≤ (date : ℚ) := by exact_mod_cast h1
    have h2' : (date : ℚ) ≤ 8640000000000000 := by exact_mod_cast h2
    rw [← hxdef, abs_le]
    unfold KNOWN_NEW_MOON_DATE
    push_cast
    constructor
    · rw [le_div_iff₀ (by norm_num)]; linarith
    · rw [div_le_iff₀ (by norm_num)]; linarith
  -- rounding the quotient
  have hxerr : |binary64 x - x| ≤ 112 / 10 ^ 10 := by
    refine le_trans (binary64_err x) ?_
    rw [div_le_iff₀ (by norm_num)]
    have : (100010964 : ℚ) ≤ 112 / 10 ^ 10 * 2 ^ 53 := by norm_num
    linarith
  have hx'abs : |binary64 x| ≤ 100010964 := by
    have h := abs_sub_abs_le_abs_sub (binary64 x) x
    have : (112 : ℚ) / 10 ^ 10 ≤ 1 := by norm_num
    linarith
  -- the truncated quotient
  generalize hqdef : jsTrunc (binary64 x / LUNAR_CYCLE64) = q
  have hq : |(q : ℚ)| ≤ 3448654 := by
    rw [← hqdef]
    refine le_trans (jsTrunc_abs_le _) ?_
    rw [abs_div, abs_of_pos hL, div_le_iff₀ hL]
    have : (100010964 : ℚ) ≤ 3448654 * 29 := by norm_num
    nlinarith
  have hrem : jsRem (binary64 x) LUNAR_CYCLE64 = binary64 x - LUNAR_CYCLE64 * (q : ℚ) := by
    rw [← hqdef]; rfl
  have hr := jsRem_abs_lt (binary64 x) LUNAR_CYCLE64 hL
  rw [abs_lt] at hr
  split_ifs with hneg
  · refine ⟨q - 1, ?_⟩
    have hδ := binary64_add_cycle_err _ hr.1 hneg
    have hq1 : |((q : ℚ) - 1)| ≤ 3448655 := by
      have := abs_sub (q : ℚ) 1
      have h1 : |(1 : ℚ)| = 1 := abs_one
      linarith
    have hprod : |((q : ℚ) - 1) * (LUNAR_CYCLE - LUNAR_CYCLE64)| ≤ 3448655 * (18 / 10 ^ 16) := by
      rw [abs_mul]
      exact mul_le_mul hq1 hc (abs_nonneg _) (by norm_num)
    have hsplit : binary64 (jsRem (binary64 x) LUNAR_CYCLE64 + LUNAR_CYCLE64)
          - (x - ((q - 1 : ℤ) : ℚ) * LUNAR_CYCLE)
        = (binary64 (jsRem (binary64 x) LUNAR_CYCLE64 + LUNAR_CYCLE64)
            - (jsRem (binary64 x) LUNAR_CYCLE64 + LUNAR_CYCLE64))
          + (binary64 x - x) + ((q : ℚ) - 1) * (LUNAR_CYCLE - LUNAR_CYCLE64) := by
      rw [hrem]; push_cast; ring
    rw [hsplit]
    refine le_trans (abs_add_three _ _ _) ?_
    have : (3448655 : ℚ) * (18 / 10 ^ 16) ≤ 63 / 10 ^ 10 := by norm_num
    have : (1 : ℚ) / 10 ^ 13 + 112 / 10 ^ 10 + 63 / 10 ^ 10 ≤ 2 / 10 ^ 8 := by norm_num
    linarith
  · refine ⟨q, ?_⟩
    have hprod : |(q : ℚ) * (LUNAR_CYCLE - LUNAR_CYCLE64)| ≤ 3448654 * (18 / 10 ^ 16) := by
      rw [abs_mul]
      exact mul_le_mul hq hc (abs_nonneg _) (by norm_num)
    have hsplit : jsRem (binary64 x) LUNAR_CYCLE64 - (x - (q : ℚ) * LUNAR_CYCLE)
        = (binary64 x - x) + (q : ℚ) * (LUNAR_CYCLE - LUNAR_CYCLE64) := by
      rw [hrem]; ring
    rw [hsplit]
    refine le_trans (abs_add _ _) ?_
    have : (3448654 : ℚ) * (18 / 10 ^ 16) ≤ 63 / 10 ^ 10 := by norm_num
    have : (112 : ℚ) / 10 ^ 10 + 63 / 10 ^ 10 ≤ 2 / 10 ^ 8 := by norm_num
    linarith

theorem getMoonAge64_epoch : getMoonAge64 KNOWN_NEW_MOON_DATE = 0 := by
  rw [getMoonAge64_eq _ (abs_le.mpr ⟨by norm_num [KNOWN_NEW_MOON_DATE, addDays, MS_PER_DAY],
    by norm_num [KNOWN_NEW_MOON_DATE, addDays, MS_PER_DAY]⟩)]
  have hx : (((KNOWN_NEW_MOON_DATE - KNOWN_NEW_MOON_DATE : ℤ) : ℚ) / 86400000) = 0 := by simp
  have hb : binary64 0 = 0 := by simp [binary64]
  have hr : jsRem 0 LUNAR_CYCLE64 = 0 := by simp [jsRem, jsTrunc]
  rw [hx, hb, hr]
  simp

theorem getMoonAge64_minus_125_cycles :
    getMoonAge64 (KNOWN_NEW_MOON_DATE - 318930357636)
      = 1039015219767523 / 35184372088832 := by
  rw [getMoonAge64_eq _ (abs_le.mpr ⟨by norm_num [KNOWN_NEW_MOON_DATE, addDays, MS_PER_DAY],
    by norm_num [KNOWN_NEW_MOON_DATE, addDays, MS_PER_DAY]⟩)]
  have hx : (((KNOWN_NEW_MOON_DATE - 318930357636 - KNOWN_NEW_MOON_DATE : ℤ) : ℚ) / 86400000)
      = -(2953058867 / 800000) := by
    push_cast; ring
  have hb : binary64 (-(2953058867 / 800000)) = -(8117306404433801 / 2199023255552) := by
    rw [binary64_eq_of (-(2953058867 / 800000)) 11 (-8117306404433801)
      (by rw [abs_neg, abs_of_pos (by norm_num)]; norm_num)
      (by rw [abs_neg, abs_of_pos (by norm_num)]; norm_num) (by norm_num)
      (by rw [abs_lt]; constructor <;> norm_num)]
    norm_num
  have hq : jsTrunc (-(8117306404433801 / 2199023255552) / LUNAR_CYCLE64) = -125 := by
    rw [LUNAR_CYCLE64_eq]
    exact jsTrunc_eq_of_neg _ _ (by norm_num) (by norm_num) (by norm_num)
  have hr : jsRem (-(8117306404433801 / 2199023255552)) LUNAR_CYCLE64
      = -(7 / 70368744177664) := by
    unfold jsRem
    rw [hq, LUNAR_CYCLE64_eq]
    norm_num
  rw [hx, hb, hr, if_pos (by norm_num), LUNAR_CYCLE64_eq]
  rw [binary64_eq_of _ 4 8312121758140184
    (by rw [abs_of_pos (by norm_num)]; norm_num)
    (by rw [abs_of_pos (by norm_num)]; norm_num) (by norm_num)
    (by rw [abs_lt]; constructor <;> norm_num)]
  norm_num

theorem getMoonAge64_plus_125_cycles :
    getMoonAge64 (KNOWN_NEW_MOON_DATE + 318930357636) = 7 / 70368744177664 := by
  rw [getMoonAge64_eq _ (abs_le.mpr ⟨by norm_num [KNOWN_NEW_MOON_DATE, addDays, MS_PER_DAY],
    by norm_num [KNOWN_NEW_MOON_DATE, addDays, MS_PER_DAY]⟩)]
  have hx : (((KNOWN_NEW_MOON_DATE + 318930357636 - KNOWN_NEW_MOON_DATE : ℤ) : ℚ) / 86400000)
      = 2953058867 / 800000 := by
    push_cast; ring
  have hb : binary64 (2953058867 / 800000) = 8117306404433801 / 2199023255552 := by
    rw [binary64_eq_of (2953058867 / 800000) 11 8117306404433801
      (by rw [abs_of_pos (by norm_num)]; norm_num)
      (by rw [abs_of_pos (by norm_num)]; norm_num) (by norm_num)
      (by rw [abs_lt]; constructor <;> norm_num)]
    norm_num
  have hq : jsTrunc (8117306404433801 / 2199023255552 / LUNAR_CYCLE64) = 125 := by
    rw [LUNAR_CYCLE64_eq]
    exact jsTrunc_eq_of_nonneg _ _ (by norm_num) (by norm_num) (by norm_num)
  have hr : jsRem (8117306404433801 / 2199023255552) LUNAR_CYCLE64
      = 7 / 70368744177664 := by
    unfold jsRem
    rw [hq, LUNAR_CYCLE64_eq]
    norm_num
  rw [hx, hb, hr, if_neg (by norm_num)]

theorem getMoonAge64_forecast_day1 :
    getMoonAge64 (addDays 969204862874 1) = 691177436823863 / 35184372088832 := by
  rw [getMoonAge64_eq _ (abs_le.mpr ⟨by norm_num [KNOWN_NEW_MOON_DATE, addDays, MS_PER_DAY],
    by norm_num [KNOWN_NEW_MOON_DATE, addDays, MS_PER_DAY]⟩)]
  have hx : (((addDays 969204862874 1 - KNOWN_NEW_MOON_DATE : ℤ) : ℚ) / 86400000)
      = 11054411437 / 43200000 := by
    unfold addDays MS_PER_DAY KNOWN_NEW_MOON_DATE
    push_cast; norm_num
  have hb : binary64 (11054411437 / 43200000) = 9003299194964075 / 35184372088832 := by
    rw [binary64_eq_of (11054411437 / 43200000) 7 9003299194964075
      (by rw [abs_of_pos (by norm_num)]; norm_num)
      (by rw [abs_of_pos (by norm_num)]; norm_num) (by norm_num)
      (by rw [abs_lt]; constructor <;> norm_num)]
    norm_num
  have hq : jsTrunc (9003299194964075 / 35184372088832 / LUNAR_CYCLE64) = 8 := by
    rw [LUNAR_CYCLE64_eq]
    exact jsTrunc_eq_of_nonneg _ _ (by norm_num) (by norm_num) (by norm_num)
  have hr : jsRem (9003299194964075 / 35184372088832) LUNAR_CYCLE64
      = 691177436823863 / 35184372088832 := by
    unfold jsRem
    rw [hq, LUNAR_CYCLE64_eq]
    norm_num
  rw [hx, hb, hr, if_neg (by norm_num)]

theorem getMoonAge64_forecast_day2 :
    getMoonAge64 (addDays 969204862874 2) = 90795226114087 / 4398046511104 := by
  rw [getMoonAge64_eq _ (abs_le.mpr ⟨by norm_num [KNOWN_NEW_MOON_DATE, addDays, MS_PER_DAY],
    by norm_num [KNOWN_NEW_MOON_DATE, addDays, MS_PER_DAY]⟩)]
  have hx : (((addDays 969204862874 2 - KNOWN_NEW_MOON_DATE : ℤ) : ℚ) / 86400000)
      = 11097611437 / 43200000 := by
    unfold addDays MS_PER_DAY KNOWN_NEW_MOON_DATE
    push_cast; norm_num
  have hb : binary64 (11097611437 / 43200000) = 4519241783526454 / 17592186044416 := by
    rw [binary64_eq_of (11097611437 / 43200000) 8 4519241783526454
      (by rw [abs_of_pos (by norm_num)]; norm_num)
      (by rw [abs_of_pos (by norm_num)]; norm_num) (by norm_num)
      (by rw [abs_lt]; constructor <;> norm_num)]
    norm_num
  have hq : jsTrunc (4519241783526454 / 17592186044416 / LUNAR_CYCLE64) = 8 := by
    rw [LUNAR_CYCLE64_eq]
    exact jsTrunc_eq_of_nonneg _ _ (by norm_num) (by norm_num) (by norm_num)
  have hr : jsRem (4519241783526454 / 17592186044416) LUNAR_CYCLE64
      = 90795226114087 / 4398046511104 := by
    unfold jsRem
    rw [hq, LUNAR_CYCLE64_eq]
    norm_num
  rw [hx, hb, hr, if_neg (by norm_num)]

/-- Two valid dates whose elapsed days differ by `s` up to `ε` have binary64 ages that
differ by `s` up to whole cycles and a small tolerance. -/
theorem getMoonAge64_shift (t t' : ℤ) (s : ℚ) (ht : |t| ≤ 8640000000000000)
    (ht' : |t'| ≤ 8640000000000000)
    (hs : |((t' - t : ℤ) : ℚ) / 86400000 - s| ≤ 1 / 10 ^ 8) :
    ∃ n : ℤ, |getMoonAge64 t' - getMoonAge64 t - s - (n : ℚ) * LUNAR_CYCLE| ≤ 5 / 10 ^ 8 := by
  obtain ⟨m, hm⟩ := getMoonAge64_near t ht
  obtain ⟨m', hm'⟩ := getMoonAge64_near t' ht'
  refine ⟨m - m', ?_⟩
  have hsplit : getMoonAge64 t' - getMoonAge64 t - s - ((m - m' : ℤ) : ℚ) * LUNAR_CYCLE
      = (getMoonAge64 t'
          - (((t' - KNOWN_NEW_MOON_DATE : ℤ) : ℚ) / 86400000 - (m' : ℚ) * LUNAR_CYCLE))
        - (getMoonAge64 t
          - (((t - KNOWN_NEW_MOON_DATE : ℤ) : ℚ) / 86400000 - (m : ℚ) * LUNAR_CYCLE))
        + (((t' - t : ℤ) : ℚ) / 86400000 - s) := by
    push_cast; ring
  rw [hsplit]
  rw [abs_le] at hm hm' hs ⊢
  obtain ⟨a1, a2⟩ := hm
  obtain ⟨b1, b2⟩ := hm'
  obtain ⟨c1, c2⟩ := hs
  constructor <;> norm_num at * <;> linarith

/-- Advancing a valid date by one to seven days of 24 hours advances the binary64 age by
as many days, up to one wrap at the cycle boundary and a small tolerance. -/
theorem getMoonAge64_step (s : ℤ) (j : ℕ) (hj1 : 1 ≤ j) (hj7 : j ≤ 7)
    (hs : |s| ≤ 8640000000000000) (hs' : |addDays s j| ≤ 8640000000000000) :
    |getMoonAge64 (addDays s j) - (getMoonAge64 s + (j : ℚ))| ≤ 5 / 10 ^ 8
      ∨ |getMoonAge64 (addDays s j) - (getMoonAge64 s + (j : ℚ) - LUNAR_CYCLE)| ≤ 5 / 10 ^ 8 := by
  have hdiff : |((addDays s j - s : ℤ) : ℚ) / 86400000 - (j : ℚ)| ≤ 1 / 10 ^ 8 := by
    have : ((addDays s j - s : ℤ) : ℚ) / 86400000 - (j : ℚ) = 0 := by
      unfold addDays MS_PER_DAY
      push_cast; ring
    rw [this]; norm_num
  obtain ⟨n, hn⟩ := getMoonAge64_shift s (addDays s j) (j : ℚ) hs hs' hdiff
  obtain ⟨a1, a2⟩ := getMoonAge64_bounds s
  obtain ⟨b1, b2⟩ := getMoonAge64_bounds (addDays s j)
  have hj1' : (1 : ℚ) ≤ (j : ℚ) := by exact_mod_cast hj1
  have hj7' : (j : ℚ) ≤ 7 := by exact_mod_cast hj7
  obtain ⟨hL29, hL30⟩ := LUNAR_CYCLE_bounds
  have hLpos : (0 : ℚ) ≤ LUNAR_CYCLE := by linarith
  rw [abs_le] at hn
  obtain ⟨c1, c2⟩ := hn
  have htol : (5 : ℚ) / 10 ^ 8 + 2 * (1 / 10 ^ 12) < 1 := by norm_num
  have hn_le : n ≤ 0 := by
    by_contra hcon
    have h1 : (1 : ℚ) ≤ (n : ℚ) := by exact_mod_cast (by omega : 1 ≤ n)
    have := mul_le_mul_of_nonneg_right h1 hLpos
    linarith
  have hn_ge : -1 ≤ n := by
    by_contra hcon
    have h1 : (n : ℚ) ≤ -2 := by exact_mod_cast (by omega : n ≤ -2)
    have := mul_le_mul_of_nonneg_right h1 hLpos
    linarith
  have hcases : n = 0 ∨ n = -1 := by omega
  rcases hcases with h0 | h0
  · left
    subst h0
    rw [abs_le]
    constructor <;> (push_cast at c1 c2; linarith)
  · right
    subst h0
    rw [abs_le]
    constructor <;> (push_cast at c1 c2; linarith)

theorem addDays_valid (t : ℤ) (i : ℕ) (hi : i ≤ 7) (ht : |t| ≤ 8640000000000000)
    (ht7 : |addDays t 7| ≤ 8640000000000000) : |addDays t i| ≤ 8640000000000000 := by
  rw [abs_le] at ht ht7 ⊢
  unfold addDays MS_PER_DAY at ht7 ⊢
  have : (i : ℤ) ≤ 7 := by exact_mod_cast hi
  have : (0 : ℤ) ≤ (i : ℤ) := Int.natCast_nonneg i
  push_cast at ht7 ⊢
  constructor <;> nlinarith

/-! ## The claims -/

/-- C1: for every instant `t`, `getMoonAge t` is the truncated remainder of the elapsed
days by `LUNAR_CYCLE`, increased by `LUNAR_CYCLE` when negative, and lies in the
half-open range from 0 to `LUNAR_CYCLE`. -/
theorem C1_getMoonAge_range (t : ℤ) :
    getMoonAge t
        = (if jsRem (((t - KNOWN_NEW_MOON_DATE : ℤ) : ℚ) / 86400000) LUNAR_CYCLE < 0
            then jsRem (((t - KNOWN_NEW_MOON_DATE : ℤ) : ℚ) / 86400000) LUNAR_CYCLE + LUNAR_CYCLE
            else jsRem (((t - KNOWN_NEW_MOON_DATE : ℤ) : ℚ) / 86400000) LUNAR_CYCLE)
      ∧ 0 ≤ getMoonAge t ∧ getMoonAge t < LUNAR_CYCLE := by
  refine ⟨?_, ?_, ?_⟩
  · rw [getMoonAge_eq_moonAgeOfDays]; rfl
  · rw [getMoonAge_eq_moonAgeOfDays]; exact moonAgeOfDays_nonneg _
  · rw [getMoonAge_eq_moonAgeOfDays]; exact moonAgeOfDays_lt _

/-- C2, as stated, fails: the thresholds are non-decreasing, but the threshold of the
final entry is below `LUNAR_CYCLE`. -/
theorem C2_counterexample :
    ¬ (List.Chain' (fun a b : ℚ => a ≤ b) (phases.map PhaseEntry.threshold)
        ∧ ∀ p ∈ phases.getLast?, LUNAR_CYCLE ≤ p.threshold) := by
  rintro ⟨_, hlast⟩
  have h := hlast ⟨29.53058, "New Moon", "ðŸŒ‘"⟩ (by simp [phases])
  norm_num [LUNAR_CYCLE] at h

/-- C2, amended: the thresholds of the table are non-decreasing (indeed strictly
increasing) in table order, and the threshold of the final entry is 29.53058, which is
below `LUNAR_CYCLE` by 0.00000867. -/
theorem C2_thresholds_sorted :
    List.Chain' (fun a b : ℚ => a ≤ b) (phases.map PhaseEntry.threshold)
      ∧ List.Chain' (fun a b : ℚ => a < b) (phases.map PhaseEntry.threshold)
      ∧ (phases.map PhaseEntry.threshold).getLast? = some 29.53058
      ∧ (29.53058 : ℚ) < LUNAR_CYCLE
      ∧ LUNAR_CYCLE - 29.53058 = 0.00000867 := by
  refine ⟨?_, ?_, ?_, ?_, ?_⟩
  · simp only [phases, List.map, List.chain'_cons, List.chain'_singleton, and_true]
    norm_num
  · simp only [phases, List.map, List.chain'_cons, List.chain'_singleton, and_true]
    norm_num
  · simp [phases]
  · norm_num [LUNAR_CYCLE]
  · norm_num [LUNAR_CYCLE]

/-- C3, as stated, fails: the instant 2551442861 ms after the reference epoch has an
age inside the cycle that exceeds every threshold, so the loop ends without returning. -/
theorem C3_counterexample :
    0 ≤ getMoonAge (KNOWN_NEW_MOON_DATE + 2551442861)
      ∧ getMoonAge (KNOWN_NEW_MOON_DATE + 2551442861) < LUNAR_CYCLE
      ∧ (∀ p ∈ phases, ¬ getMoonAge (KNOWN_NEW_MOON_DATE + 2551442861) ≤ p.threshold)
      ∧ scanPhases phases (getMoonAge (KNOWN_NEW_MOON_DATE + 2551442861)) = none := by
  have hage := getMoonAge_late
  have hnone : scanPhases phases (getMoonAge (KNOWN_NEW_MOON_DATE + 2551442861)) = none := by
    rw [hage]; exact scanPhases_phases_of_gt _ (by norm_num)
  refine ⟨?_, ?_, ?_, hnone⟩
  · rw [hage]; norm_num
  · rw [hage]; norm_num [LUNAR_CYCLE]
  · intro p hp
    exact not_le.mpr ((scanPhases_eq_none_iff _ phases).mp hnone p hp)

/-- C3, amended: for every age up to 29.53058 the loop finds a table entry whose
threshold is at least the age; for every age above 29.53058 the loop finds none and the
default return is reached, which yields the descriptor of the final table entry. -/
theorem C3_scan_total (age : ℚ) :
    (age ≤ 29.53058 → ∃ p, scanPhases phases age = some p ∧ p ∈ phases ∧ age ≤ p.threshold
        ∧ getMoonPhase age = p.descriptor)
      ∧ (29.53058 < age → scanPhases phases age = none ∧ getMoonPhase age = defaultPhase
        ∧ ∀ p ∈ phases.getLast?, getMoonPhase age = p.descriptor) := by
  constructor
  · intro h
    obtain ⟨p, hp, hm, hle⟩ := scanPhases_phases_of_le age h
    exact ⟨p, hp, hm, hle, by simp [getMoonPhase, hp]⟩
  · intro h
    have hnone := scanPhases_phases_of_gt age h
    have hdef : getMoonPhase age = defaultPhase := by simp [getMoonPhase, hnone]
    refine ⟨hnone, hdef, ?_⟩
    intro p hp
    simp [phases] at hp
    subst hp
    rw [hdef]; rfl

/-- Witness of C3 amended, at the ages 29.53058 and 29.530585. -/
theorem C3_scan_total_witness :
    (∃ p, scanPhases phases 29.53058 = some p ∧ p ∈ phases ∧ (29.53058 : ℚ) ≤ p.threshold
        ∧ getMoonPhase 29.53058 = p.descriptor)
      ∧ (scanPhases phases 29.530585 = none ∧ getMoonPhase 29.530585 = defaultPhase
        ∧ ∀ p ∈ phases.getLast?, getMoonPhase 29.530585 = p.descriptor) :=
  ⟨(C3_scan_total 29.53058).1 (by norm_num), (C3_scan_total 29.530585).2 (by norm_num)⟩

/-- C4: `getMoonPhase` returns the descriptor of the first table entry whose threshold
is at least the age; for the entry at position `i` this condition is the same as the age
lying above the preceding threshold (no bound for the first entry) and at most the
threshold at `i`.  Age 1.84566 gives "New Moon" and age 1.84567 gives "Waxing Crescent". -/
theorem C4_first_upper_bound (age : ℚ) (i : ℕ) (e : PhaseEntry) (he : phases[i]? = some e) :
    (((∀ j p, j < i → phases[j]? = some p → p.threshold < age) ∧ age ≤ e.threshold)
        ↔ ((∀ p, 0 < i → phases[i - 1]? = some p → p.threshold < age) ∧ age ≤ e.threshold))
      ∧ ((∀ j p, j < i → phases[j]? = some p → p.threshold < age) → age ≤ e.threshold →
          scanPhases phases age = some e ∧ getMoonPhase age = e.descriptor)
      ∧ ((∀ p, 0 < i → phases[i - 1]? = some p → p.threshold < age) → age ≤ e.threshold →
          getMoonPhase age = ⟨e.emoji, e.name⟩)
      ∧ (getMoonPhase 1.84566).name = "New Moon"
      ∧ (getMoonPhase 1.84567).name = "Waxing Crescent" := by
  have hback : (∀ p, 0 < i → phases[i - 1]? = some p → p.threshold < age) →
      ∀ j p, j < i → phases[j]? = some p → p.threshold < age := by
    intro hpred j p hj hp
    have hi : 0 < i := by omega
    have hlen : i - 1 < phases.length := by
      have := (List.getElem?_eq_some_iff.mp he).1
      omega
    have hq : phases[i - 1]? = some (phases[i - 1]) := List.getElem?_eq_getElem hlen
    have hqa := hpred _ hi hq
    rcases Nat.lt_or_ge j (i - 1) with hlt | hge
    · exact lt_trans (phases_threshold_lt j (i - 1) p _ hlt hp hq) hqa
    · have hji : j = i - 1 := by omega
      subst hji
      rw [hq] at hp
      cases hp
      exact hqa
  have hfirst : (∀ j p, j < i → phases[j]? = some p → p.threshold < age) → age ≤ e.threshold →
      scanPhases phases age = some e ∧ getMoonPhase age = e.descriptor := by
    intro hprev hle
    have hs := scanPhases_eq_of_first age phases i e he hprev hle
    exact ⟨hs, by simp [getMoonPhase, hs]⟩
  refine ⟨?_, hfirst, ?_, ?_, ?_⟩
  · constructor
    · rintro ⟨hprev, hle⟩
      exact ⟨fun p hi hp => hprev (i - 1) p (by omega) hp, hle⟩
    · rintro ⟨hpred, hle⟩
      exact ⟨hback hpred, hle⟩
  · intro hpred hle
    exact (hfirst (hback hpred) hle).2
  · have hs := scanPhases_eq_of_first 1.84566 phases 0 _ (by simp [phases]; rfl)
      (fun j p hj => absurd hj (Nat.not_lt_zero j)) (le_refl _)
    simp [getMoonPhase, hs, PhaseEntry.descriptor]
  · have hs := scanPhases_eq_of_first 1.84567 phases 1
      ⟨5.53699, "Waxing Crescent", "ðŸŒ’"⟩ (by simp [phases])
      (by
        intro j p hj hp
        have hj0 : j = 0 := by omega
        subst hj0
        simp [phases] at hp
        subst hp
        norm_num)
      (by norm_num)
    simp [getMoonPhase, hs, PhaseEntry.descriptor]

/-- Witness of C4, at age 7 and the third entry of the table. -/
theorem C4_first_upper_bound_witness :
    phases[2]? = some ⟨9.22831, "First Quarter", "ðŸŒ“"⟩
      ∧ (∀ p, 0 < 2 → phases[2 - 1]? = some p → p.threshold < (7 : ℚ))
      ∧ (7 : ℚ) ≤ 9.22831
      ∧ getMoonPhase 7 = ⟨"ðŸŒ“", "First Quarter"⟩ :=
  have he : phases[2]? = some ⟨9.22831, "First Quarter", "ðŸŒ“"⟩ := by simp [phases]
  have hpred : ∀ p, 0 < 2 → phases[2 - 1]? = some p → p.threshold < (7 : ℚ) := by
    intro p _ hp
    simp [phases] at hp
    subst hp
    norm_num
  have hle : (7 : ℚ) ≤ 9.22831 := by norm_num
  ⟨he, hpred, hle, (C4_first_upper_bound 7 2 _ he).2.2.1 hpred hle⟩

/-- C5: at the reference epoch `getMoonAge` returns exactly 0, `getMoonPhase` of that
age is named "New Moon", and so is the phase `displayMoonPhase` shows. -/
theorem C5_epoch_new_moon :
    KNOWN_NEW_MOON_DATE = 947182440000
      ∧ getMoonAge KNOWN_NEW_MOON_DATE = 0
      ∧ (getMoonPhase (getMoonAge KNOWN_NEW_MOON_DATE)).name = "New Moon"
      ∧ (displayMoonPhase KNOWN_NEW_MOON_DATE).name = "New Moon" := by
  have hage : getMoonAge KNOWN_NEW_MOON_DATE = 0 := by
    rw [getMoonAge_eq_moonAgeOfDays]
    have : (((KNOWN_NEW_MOON_DATE - KNOWN_NEW_MOON_DATE : ℤ) : ℚ) / 86400000) = 0 := by simp
    rw [this]
    exact moonAgeOfDays_of_mem 0 (le_refl 0) LUNAR_CYCLE_pos
  have hs := scanPhases_eq_of_first 0 phases 0 ⟨1.84566, "New Moon", "ðŸŒ‘"⟩
    (by simp [phases]) (fun j p hj => absurd hj (Nat.not_lt_zero j)) (by norm_num)
  have hphase : (getMoonPhase 0).name = "New Moon" := by
    simp [getMoonPhase, hs, PhaseEntry.descriptor]
  refine ⟨by norm_num [KNOWN_NEW_MOON_DATE], hage, ?_, ?_⟩
  · rw [hage]; exact hphase
  · unfold displayMoonPhase
    simp only [hage]
    exact hphase

/-- C6, as stated, fails on the code: the instant 318930357636 ms before the reference
epoch lies exactly 125 cycles before it, yet the code's age there is 29.5305886699999...
while the age at the epoch is 0; 125 cycles after the epoch the age is not 0 either. -/
theorem C6_counterexample :
    ((KNOWN_NEW_MOON_DATE - 318930357636 - KNOWN_NEW_MOON_DATE : ℤ) : ℚ) / 86400000
        = (-125 : ℤ) * LUNAR_CYCLE
      ∧ getMoonAge64 KNOWN_NEW_MOON_DATE = 0
      ∧ getMoonAge64 (KNOWN_NEW_MOON_DATE - 318930357636) = 1039015219767523 / 35184372088832
      ∧ 29 < getMoonAge64 (KNOWN_NEW_MOON_DATE - 318930357636)
          - getMoonAge64 KNOWN_NEW_MOON_DATE
      ∧ getMoonAge64 (KNOWN_NEW_MOON_DATE + 318930357636) ≠ getMoonAge64 KNOWN_NEW_MOON_DATE := by
  refine ⟨?_, getMoonAge64_epoch, getMoonAge64_minus_125_cycles, ?_, ?_⟩
  · unfold LUNAR_CYCLE; push_cast; norm_num
  · rw [getMoonAge64_epoch, getMoonAge64_minus_125_cycles]; norm_num
  · rw [getMoonAge64_epoch, getMoonAge64_plus_125_cycles]; norm_num

/-- C6, amended: for valid dates `t` and `t'` whose distance is within half a millisecond
of `k` cycles, the ages the code computes differ by a whole number `n` of cycles, with
`n` one of -1, 0, 1, up to 0.00000005 days. -/
theorem C6_periodic_binary64 (t t' k : ℤ) (ht : |t| ≤ 8640000000000000)
    (ht' : |t'| ≤ 8640000000000000)
    (hshift : |((t' - t : ℤ) : ℚ) - (k : ℚ) * LUNAR_CYCLE * 86400000| ≤ 1 / 2) :
    ∃ n : ℤ, -1 ≤ n ∧ n ≤ 1
      ∧ |getMoonAge64 t' - getMoonAge64 t - (n : ℚ) * LUNAR_CYCLE| ≤ 5 / 10 ^ 8 := by
  have hs : |((t' - t : ℤ) : ℚ) / 86400000 - (k : ℚ) * LUNAR_CYCLE| ≤ 1 / 10 ^ 8 := by
    have heq : ((t' - t : ℤ) : ℚ) / 86400000 - (k : ℚ) * LUNAR_CYCLE
        = (((t' - t : ℤ) : ℚ) - (k : ℚ) * LUNAR_CYCLE * 86400000) / 86400000 := by
      field_simp
      ring
    rw [heq, abs_div, abs_of_pos (by norm_num : (0 : ℚ) < 86400000), div_le_iff₀ (by norm_num)]
    have : (1 : ℚ) / 2 ≤ 1 / 10 ^ 8 * 86400000 := by norm_num
    linarith
  obtain ⟨n0, hn0⟩ := getMoonAge64_shift t t' ((k : ℚ) * LUNAR_CYCLE) ht ht' hs
  obtain ⟨a1, a2⟩ := getMoonAge64_bounds t
  obtain ⟨b1, b2⟩ := getMoonAge64_bounds t'
  obtain ⟨hL29, hL30⟩ := LUNAR_CYCLE_bounds
  have hLpos : (0 : ℚ) ≤ LUNAR_CYCLE := by linarith
  have htol : (5 : ℚ) / 10 ^ 8 + 2 * (1 / 10 ^ 12) < 1 := by norm_num
  have hbound : |getMoonAge64 t' - getMoonAge64 t - ((k + n0 : ℤ) : ℚ) * LUNAR_CYCLE|
      ≤ 5 / 10 ^ 8 := by
    have : getMoonAge64 t' - getMoonAge64 t - ((k + n0 : ℤ) : ℚ) * LUNAR_CYCLE
        = getMoonAge64 t' - getMoonAge64 t - (k : ℚ) * LUNAR_CYCLE - (n0 : ℚ) * LUNAR_CYCLE := by
      push_cast; ring
    rw [this]; exact hn0
  refine ⟨k + n0, ?_, ?_, hbound⟩
  · by_contra hcon
    have h1 : ((k + n0 : ℤ) : ℚ) ≤ -2 := by exact_mod_cast (by omega : k + n0 ≤ -2)
    have := mul_le_mul_of_nonneg_right h1 hLpos
    rw [abs_le] at hbound
    obtain ⟨c1, c2⟩ := hbound
    linarith
  · by_contra hcon
    have h1 : (2 : ℚ) ≤ ((k + n0 : ℤ) : ℚ) := by exact_mod_cast (by omega : 2 ≤ k + n0)
    have := mul_le_mul_of_nonneg_right h1 hLpos
    rw [abs_le] at hbound
    obtain ⟨c1, c2⟩ := hbound
    linarith

/-- Witness of C6 amended, at the reference epoch and 125 cycles before it. -/
theorem C6_periodic_binary64_witness :
    |KNOWN_NEW_MOON_DATE| ≤ 8640000000000000
      ∧ |KNOWN_NEW_MOON_DATE - 318930357636| ≤ 8640000000000000
      ∧ |((KNOWN_NEW_MOON_DATE - 318930357636 - KNOWN_NEW_MOON_DATE : ℤ) : ℚ)
          - ((-125 : ℤ) : ℚ) * LUNAR_CYCLE * 86400000| ≤ 1 / 2
      ∧ ∃ n : ℤ, -1 ≤ n ∧ n ≤ 1
        ∧ |getMoonAge64 (KNOWN_NEW_MOON_DATE - 318930357636)
            - getMoonAge64 KNOWN_NEW_MOON_DATE - (n : ℚ) * LUNAR_CYCLE| ≤ 5 / 10 ^ 8 :=
  have h1 : |KNOWN_NEW_MOON_DATE| ≤ 8640000000000000 :=
    abs_le.mpr ⟨by norm_num [KNOWN_NEW_MOON_DATE], by norm_num [KNOWN_NEW_MOON_DATE]⟩
  have h2 : |KNOWN_NEW_MOON_DATE - 318930357636| ≤ 8640000000000000 :=
    abs_le.mpr ⟨by norm_num [KNOWN_NEW_MOON_DATE], by norm_num [KNOWN_NEW_MOON_DATE]⟩
  have h3 : |((KNOWN_NEW_MOON_DATE - 318930357636 - KNOWN_NEW_MOON_DATE : ℤ) : ℚ)
      - ((-125 : ℤ) : ℚ) * LUNAR_CYCLE * 86400000| ≤ 1 / 2 := by
    unfold LUNAR_CYCLE
    push_cast
    norm_num
  ⟨h1, h2, h3, C6_periodic_binary64 _ _ _ h1 h2 h3⟩

/-- C7: 1275721920 ms after the reference epoch `getMoonAge` returns 14.7653, whose
phase is "Full Moon"; every age above 12.91963 and at most 16.61096 is "Full Moon". -/
theorem C7_full_moon (age : ℚ) (hlo : 12.91963 < age) (hhi : age ≤ 16.61096) :
    getMoonAge (KNOWN_NEW_MOON_DATE + 1275721920) = 14.7653
      ∧ (getMoonPhase (getMoonAge (KNOWN_NEW_MOON_DATE + 1275721920))).name = "Full Moon"
      ∧ (getMoonPhase age).name = "Full Moon" := by
  have hfull : ∀ a : ℚ, 12.91963 < a → a ≤ 16.61096 → (getMoonPhase a).name = "Full Moon" := by
    intro a h1 h2
    have hs := scanPhases_eq_of_first a phases 4 ⟨16.61096, "Full Moon", "ðŸŒ•"⟩
      (by simp [phases])
      (by
        intro j p hj hp
        have hlt : p.threshold ≤ 12.91963 := by
          interval_cases j <;> simp [phases] at hp <;> subst hp <;> norm_num
        linarith)
      h2
    simp [getMoonPhase, hs, PhaseEntry.descriptor]
  have hage : getMoonAge (KNOWN_NEW_MOON_DATE + 1275721920) = 14.7653 := by
    rw [getMoonAge_eq_moonAgeOfDays]
    have : (((KNOWN_NEW_MOON_DATE + 1275721920 - KNOWN_NEW_MOON_DATE : ℤ) : ℚ) / 86400000)
        = 14.7653 := by
      push_cast; norm_num
    rw [this]
    exact moonAgeOfDays_of_mem _ (by norm_num) (by norm_num [LUNAR_CYCLE])
  refine ⟨hage, ?_, hfull age hlo hhi⟩
  rw [hage]
  exact hfull _ (by norm_num) (by norm_num)

/-- Witness of C7, at age 15. -/
theorem C7_full_moon_witness :
    (12.91963 : ℚ) < 15 ∧ (15 : ℚ) ≤ 16.61096 ∧ (getMoonPhase 15).name = "Full Moon" :=
  ⟨by norm_num, by norm_num, (C7_full_moon 15 (by norm_num) (by norm_num)).2.2⟩

/-- C8, as stated, fails on the code even with days of 86400000 ms: from the instant
969204862874 the ages one and two days later differ by `1 + 2 ^ (-45)`, which is neither
1 nor `1 - LUNAR_CYCLE`. -/
theorem C8_counterexample :
    getMoonAge64 (addDays 969204862874 2) - getMoonAge64 (addDays 969204862874 1)
        = 1 + 1 / 2 ^ 45
      ∧ getMoonAge64 (addDays 969204862874 2) - getMoonAge64 (addDays 969204862874 1) ≠ 1
      ∧ getMoonAge64 (addDays 969204862874 2) - getMoonAge64 (addDays 969204862874 1)
          ≠ 1 - LUNAR_CYCLE := by
  rw [getMoonAge64_forecast_day1, getMoonAge64_forecast_day2]
  unfold LUNAR_CYCLE
  refine ⟨by norm_num, by norm_num, by norm_num⟩

/-- C8, amended: with days of 86400000 ms and valid dates, for every instant `t` and every
`i` from 1 to 7 the age the code computes `i` days later is within 0.00000005 days of
the age at `t` plus `i`, or of that sum less `LUNAR_CYCLE`; the seven forecast ages are
these values, and each consecutive pair differs by 1 or by `1 - LUNAR_CYCLE` up to
0.00000005 days. -/
theorem C8_forecast_step_binary64 (t : ℤ) (i : ℕ) (h1 : 1 ≤ i) (h7 : i ≤ 7)
    (ht : |t| ≤ 8640000000000000) (ht7 : |addDays t 7| ≤ 8640000000000000) :
    (|getMoonAge64 (addDays t i) - (getMoonAge64 t + (i : ℚ))| ≤ 5 / 10 ^ 8
        ∨ |getMoonAge64 (addDays t i) - (getMoonAge64 t + (i : ℚ) - LUNAR_CYCLE)| ≤ 5 / 10 ^ 8)
      ∧ (forecastAges64 t)[i - 1]? = some (getMoonAge64 (addDays t i))
      ∧ (forecastAges64 t).length = 7
      ∧ (i ≤ 6 →
          |getMoonAge64 (addDays t (i + 1)) - getMoonAge64 (addDays t i) - 1| ≤ 5 / 10 ^ 8
          ∨ |getMoonAge64 (addDays t (i + 1)) - getMoonAge64 (addDays t i) - (1 - LUNAR_CYCLE)|
              ≤ 5 / 10 ^ 8) := by
  have hvi := addDays_valid t i h7 ht ht7
  refine ⟨getMoonAge64_step t i h1 h7 ht hvi, ?_, ?_, ?_⟩
  · unfold forecastAges64
    interval_cases i <;> simp [List.range']
  · simp [forecastAges64]
  · intro h6
    have hvi1 := addDays_valid t (i + 1) (by omega) ht ht7
    have hadd : addDays (addDays t i) 1 = addDays t (i + 1) := by
      unfold addDays; push_cast; ring
    have hstep := getMoonAge64_step (addDays t i) 1 (le_refl 1) (by norm_num) hvi
      (by rw [hadd]; exact hvi1)
    rw [hadd] at hstep
    rcases hstep with h | h
    · left
      have : getMoonAge64 (addDays t (i + 1)) - getMoonAge64 (addDays t i) - 1
          = getMoonAge64 (addDays t (i + 1)) - (getMoonAge64 (addDays t i) + ((1 : ℕ) : ℚ)) := by
        push_cast; ring
      rw [this]; exact h
    · right
      have : getMoonAge64 (addDays t (i + 1)) - getMoonAge64 (addDays t i) - (1 - LUNAR_CYCLE)
          = getMoonAge64 (addDays t (i + 1))
            - (getMoonAge64 (addDays t i) + ((1 : ℕ) : ℚ) - LUNAR_CYCLE) := by
        push_cast; ring
      rw [this]; exact h


/-- Witness of C8 amended, one day after the instant 969204862874. -/
theorem C8_forecast_step_binary64_witness :
    1 ≤ 1 ∧ 1 ≤ 7
      ∧ |(969204862874 : ℤ)| ≤ 8640000000000000
      ∧ |addDays 969204862874 7| ≤ 8640000000000000
      ∧ (|getMoonAge64 (addDays 969204862874 1)
            - (getMoonAge64 969204862874 + ((1 : ℕ) : ℚ))| ≤ 5 / 10 ^ 8
          ∨ |getMoonAge64 (addDays 969204862874 1)
            - (getMoonAge64 969204862874 + ((1 : ℕ) : ℚ) - LUNAR_CYCLE)| ≤ 5 / 10 ^ 8) :=
  have ht : |(969204862874 : ℤ)| ≤ 8640000000000000 :=
    abs_le.mpr ⟨by norm_num, by norm_num⟩
  have ht7 : |addDays 969204862874 7| ≤ 8640000000000000 :=
    abs_le.mpr ⟨by norm_num [addDays, MS_PER_DAY], by norm_num [addDays, MS_PER_DAY]⟩
  ⟨le_refl 1, by decide, ht, ht7,
    (C8_forecast_step_binary64 969204862874 1 (le_refl 1) (by decide) ht ht7).1⟩

/-- C9: two ages `a1 < a2` with no table threshold `t` such that `a1 ≤ t < a2` get the
same name and the same emoji from `getMoonPhase`. -/
theorem C9_constant_in_bucket (a1 a2 : ℚ) (hlt : a1 < a2)
    (hno : ∀ p ∈ phases, ¬ (a1 ≤ p.threshold ∧ p.threshold < a2)) :
    (getMoonPhase a1).name = (getMoonPhase a2).name
      ∧ (getMoonPhase a1).emoji = (getMoonPhase a2).emoji := by
  have hscan : scanPhases phases a1 = scanPhases phases a2 := by
    apply scanPhases_congr
    intro p hp
    constructor
    · intro h1
      by_contra h2
      exact hno p hp ⟨h1, not_le.mp h2⟩
    · intro h2
      exact le_trans hlt.le h2
  unfold getMoonPhase
  rw [hscan]
  exact ⟨rfl, rfl⟩

/-- Witness of C9, at the ages 2 and 3 of the second bucket. -/
theorem C9_constant_in_bucket_witness :
    (2 : ℚ) < 3
      ∧ (∀ p ∈ phases, ¬ ((2 : ℚ) ≤ p.threshold ∧ p.threshold < 3))
      ∧ (getMoonPhase 2).name = (getMoonPhase 3).name
      ∧ (getMoonPhase 2).emoji = (getMoonPhase 3).emoji :=
  have hno : ∀ p ∈ phases, ¬ ((2 : ℚ) ≤ p.threshold ∧ p.threshold < 3) := by
    intro p hp
    simp only [phases, List.mem_cons, List.mem_singleton, List.not_mem_nil, or_false] at hp
    rcases hp with hp | hp | hp | hp | hp | hp | hp | hp | hp <;> subst hp <;> norm_num
  ⟨by norm_num, hno, C9_constant_in_bucket 2 3 (by norm_num) hno⟩

/-- C10: for every age, `getMoonPhase` names "New Moon" exactly when the age is at most
1.84566 or above 27.68493; an age above every threshold gets the descriptor of the
final table entry, the same descriptor as the ages of the first bucket. -/
theorem C10_new_moon_iff (age : ℚ) :
    ((getMoonPhase age).name = "New Moon" ↔ (age ≤ 1.84566 ∨ 27.68493 < age))
      ∧ ((∀ p ∈ phases, p.threshold < age) →
          scanPhases phases age = none ∧ ∀ p ∈ phases.getLast?, getMoonPhase age = p.descriptor)
      ∧ (age ≤ 1.84566 ∨ 27.68493 < age → getMoonPhase age = defaultPhase) := by
  have hcases : (age ≤ 1.84566 ∨ 27.68493 < age → getMoonPhase age = defaultPhase)
      ∧ (¬ (age ≤ 1.84566 ∨ 27.68493 < age) → (getMoonPhase age).name ≠ "New Moon") := by
    unfold getMoonPhase phases
    simp only [scanPhases]
    constructor
    · rintro (h | h)
      · rw [if_pos h]; rfl
      · split_ifs <;> first | rfl | (exfalso; linarith)
    · intro h
      push_neg at h
      obtain ⟨h1, h2⟩ := h
      split_ifs <;> first | (exfalso; linarith) | (simp [PhaseEntry.descriptor])
  refine ⟨⟨?_, ?_⟩, ?_, hcases.1⟩
  · intro hname
    by_contra hcon
    exact hcases.2 hcon hname
  · intro h
    rw [hcases.1 h]; rfl
  · intro hall
    have hnone := (scanPhases_eq_none_iff age phases).mpr hall
    refine ⟨hnone, ?_⟩
    intro p hp
    simp [phases] at hp
    subst hp
    simp [getMoonPhase, hnone, defaultPhase, PhaseEntry.descriptor]

/-- Witness of C10, at age 30, above every threshold. -/
theorem C10_new_moon_iff_witness :
    (∀ p ∈ phases, p.threshold < (30 : ℚ))
      ∧ scanPhases phases 30 = none
      ∧ (getMoonPhase 30).name = "New Moon"
      ∧ getMoonPhase 30 = defaultPhase :=
  have hall : ∀ p ∈ phases, p.threshold < (30 : ℚ) := by
    intro p hp
    simp only [phases, List.mem_cons, List.mem_singleton, List.not_mem_nil, or_false] at hp
    rcases hp with hp | hp | hp | hp | hp | hp | hp | hp | hp <;> subst hp <;> norm_num
  ⟨hall, ((C10_new_moon_iff 30).2.1 hall).1,
    (C10_new_moon_iff 30).1.mpr (Or.inr (by norm_num)),
    (C10_new_moon_iff 30).2.2 (Or.inr (by norm_num))⟩

end MoonTracker
